import Mathlib

/-!
Verification of the transaction layer (`Txn`) of an Ethereum-style state
transition core, shallowly embedded from the Go sources (`txn.go` and the
`runtime` package).

Modelling conventions:
* 20-byte addresses and 32-byte hashes are modelled as `Nat` via their
  big-endian value; this bijection preserves equality and (for fixed-width
  keys) lexicographic order, which is all the code observes.
* `big.Int` balances are modelled as `Nat` (the protocol keeps them
  non-negative), `uint64` fields (nonce, refund counter) wrap modulo `2 ^ 64`
  exactly as in Go.
* The immutable radix journal (`iradix`) is modelled as an association list
  kept in ascending key order; the radix walk order (ascending lexicographic
  byte order of the encoded keys) is reproduced by an explicit `rank`
  function on the key type.
* Go panics are modelled as `Option.none`; Go errors as explicit values.
-/

namespace EthState

/-- Runtime errors of the `runtime` package (`part_000`). -/
inductive RuntimeError where
  | outOfGas
  | stackOverflow
  | stackUnderflow
  | notEnoughFunds
  | insufficientBalance
  | maxCodeSizeExceeded
  | contractAddressCollision
  | depth
  | executionReverted
  | codeStoreOutOfGas
deriving DecidableEq, Repr

/-- The evmc storage status enum returned by `SetStorage`. -/
inductive StorageStatus where
  | unchanged
  | modified
  | added
  | deleted
  | modifiedAgain
deriving DecidableEq, Repr

/-- evmc revision numbers (positions in the protocol total order). -/
def Constantinople : Nat := 5

/-- evmc revision number of Petersburg. -/
def Petersburg : Nat := 6

/-- evmc revision number of Istanbul. -/
def Istanbul : Nat := 7

/-- Stand-in for the external keccak256 library function (`web3.Keccak256`).
An arbitrary executable injection from byte lists to `Nat`; the development
only ever relies on its value at the empty input (`EmptyCodeHash`). -/
def keccak256 (code : List Nat) : Nat :=
  code.foldl (fun acc b => acc * 256 + b + 1) 1

/-- The hash of empty code, `keccak256(nil)`. -/
def EmptyCodeHash : Nat := keccak256 []

/-- The root hash of the empty state trie (an opaque 32-byte constant in the
source, distinct from the zero hash and from `EmptyCodeHash`). -/
def EmptyStateHash : Nat := 2

/-- An account: balance, nonce, code hash and storage root (`Account`). -/
structure Account where
  Balance : Nat
  Nonce : Nat
  CodeHash : Nat
  Root : Nat
deriving DecidableEq, Repr

/-- A log record emitted by `EmitLog`. -/
structure Log where
  Address : Nat
  Topics : List Nat
  Data : List Nat
deriving DecidableEq, Repr

/-- Per-address journal record (`stateObject`): the dirty account, the slot
overlay (Go: a nested `iradix` txn, `nil` modelled as `[]`), raw code bytes,
and the dirty-code / suicide / deleted flags.  Overlay entries map a slot key
to `some value` or to a tombstone `none` (Go inserts a `nil` value). -/
structure StateObject where
  Account : Account
  Code : List Nat
  DirtyCode : Bool
  Suicide : Bool
  Deleted : Bool
  Overlay : List (Nat × Option Nat)
deriving DecidableEq, Repr

/-- Keys of the journal: 20-byte address keys plus the two 32-byte sentinel
keys `logIndex` (0x00..02) and `refundIndex` (0x00..03). -/
inductive JKey where
  | addr (a : Nat)
  | log
  | refund
deriving DecidableEq, Repr

/-- Values stored in the journal under the corresponding keys. -/
inductive JVal where
  | obj (o : StateObject)
  | logs (l : List Log)
  | refund (n : Nat)
deriving DecidableEq, Repr

/-- Rank of a journal key, mirroring the ascending lexicographic byte order
of the encoded keys: the 20-byte key of address 0 is a strict prefix of both
32-byte sentinel keys (so it sorts first), every other address key has a
nonzero byte before position 31 (so it sorts after both sentinels), and
address keys compare among themselves by address value. -/
def JKey.rank : JKey → Nat
  | .addr 0 => 0
  | .log => 1
  | .refund => 2
  | .addr (a + 1) => a + 3

/-- The journal: an association list in ascending `rank` order (the pure
counterpart of the `iradix` tree). -/
abbrev Journal : Type := List (JKey × JVal)

/-- Journal lookup (`iradix` `Get`). -/
def jGet (j : Journal) (k : JKey) : Option JVal :=
  match j with
  | [] => none
  | e :: rest => if e.1 = k then some e.2 else jGet rest k

/-- Journal insert (`iradix` `Insert`): replaces the value at an existing
key, otherwise inserts at the rank-ordered position. -/
def jInsert (k : JKey) (v : JVal) (j : Journal) : Journal :=
  match j with
  | [] => [(k, v)]
  | e :: rest =>
    if k.rank < e.1.rank then (k, v) :: e :: rest
    else if k = e.1 then (k, v) :: rest
    else e :: jInsert k v rest

/-- Journal delete (`iradix` `Delete`): removes the key entirely. -/
def jDelete (k : JKey) (j : Journal) : Journal :=
  j.filter (fun e => !(e.1 = k : Bool))

/-- Slot-overlay lookup (`Get` on the per-object `iradix` txn). -/
def oGet (ov : List (Nat × Option Nat)) (k : Nat) : Option (Option Nat) :=
  match ov with
  | [] => none
  | e :: rest => if e.1 = k then some e.2 else oGet rest k

/-- Slot-overlay insert, kept in ascending key order. -/
def oInsert (k : Nat) (v : Option Nat) (ov : List (Nat × Option Nat)) :
    List (Nat × Option Nat) :=
  match ov with
  | [] => [(k, v)]
  | e :: rest =>
    if k < e.1 then (k, v) :: e :: rest
    else if k = e.1 then (k, v) :: rest
    else e :: oInsert k v rest

/-- The immutable committed-state snapshot behind a `Txn` (the `Snapshot`
interface): account lookup (`nil`/error collapsed to `none`), storage lookup
by address, storage root and key (absent slots read as zero), and code lookup
by code hash and address. -/
structure SnapshotData where
  getAccount : Nat → Option Account
  getStorage : Nat → Nat → Nat → Nat
  getCode : Nat → Nat → List Nat

/-- The mutable transaction layer (`Txn`): the backing snapshot, the stack of
published journal versions, the live journal, and the active revision. -/
structure TxnState where
  snap : SnapshotData
  snapshots : List Journal
  journal : Journal
  rev : Nat

/-- Fresh empty state object as built by `upsertAccount` / `newStateObject` /
`CreateAccount`: zero balance, empty code hash, empty storage root. -/
def freshStateObject : StateObject :=
  { Account := { Balance := 0, Nonce := 0, CodeHash := EmptyCodeHash,
                 Root := EmptyStateHash }
    Code := [], DirtyCode := false, Suicide := false, Deleted := false,
    Overlay := [] }

/-- Resolve the state object visible at an address (`getStateObject`):
journal first (a `Deleted` entry hides the address), else materialise a copy
from the snapshot. -/
def getStateObject (s : TxnState) (a : Nat) : Option StateObject :=
  match jGet s.journal (.addr a) with
  | some (.obj o) => if o.Deleted then none else some o
  | some _ => none
  | none =>
    match s.snap.getAccount a with
    | none => none
    | some acct =>
      some { Account := acct, Code := [], DirtyCode := false,
             Suicide := false, Deleted := false, Overlay := [] }

/-- Mutate (or create) the object at an address and reinsert it
(`upsertAccount` with `create = true`). -/
def upsertAccount (s : TxnState) (a : Nat) (f : StateObject → StateObject) :
    TxnState :=
  match getStateObject s a with
  | some o => { s with journal := jInsert (.addr a) (.obj (f o)) s.journal }
  | none => { s with journal := jInsert (.addr a) (.obj (f freshStateObject)) s.journal }

/-- Balance visible at an address, zero if absent (`GetBalance`). -/
def GetBalance (s : TxnState) (a : Nat) : Nat :=
  match getStateObject s a with
  | none => 0
  | some o => o.Account.Balance

/-- Add to the balance, creating the account if missing (`AddBalance`). -/
def AddBalance (s : TxnState) (a : Nat) (v : Nat) : TxnState :=
  upsertAccount s a fun o =>
    { o with Account := { o.Account with Balance := o.Account.Balance + v } }

/-- Block-reward credit (`AddSealingReward`): a suicided object is replaced
by a fresh one holding the reward, otherwise the reward is added. -/
def AddSealingReward (s : TxnState) (a : Nat) (v : Nat) : TxnState :=
  upsertAccount s a fun o =>
    if o.Suicide then
      { freshStateObject with
          Account := { freshStateObject.Account with Balance := v } }
    else
      { o with Account := { o.Account with Balance := o.Account.Balance + v } }

/-- Deduct from the balance (`SubBalance`): zero amount is a no-op, an
insufficient visible balance fails with `notEnoughFunds` and changes
nothing, otherwise the balance is decreased. -/
def SubBalance (s : TxnState) (a : Nat) (amount : Nat) :
    Option RuntimeError × TxnState :=
  if amount = 0 then (none, s)
  else if GetBalance s a < amount then (some .notEnoughFunds, s)
  else
    (none, upsertAccount s a fun o =>
      { o with Account := { o.Account with Balance := o.Account.Balance - amount } })

/-- Set the balance to the magnitude of the given value (`SetBalance`). -/
def SetBalance (s : TxnState) (a : Nat) (v : Nat) : TxnState :=
  upsertAccount s a fun o =>
    { o with Account := { o.Account with Balance := v } }

/-- Increment the nonce, wrapping as `uint64` (`IncrNonce`). -/
def IncrNonce (s : TxnState) (a : Nat) : TxnState :=
  upsertAccount s a fun o =>
    { o with Account := { o.Account with Nonce := (o.Account.Nonce + 1) % 2 ^ 64 } }

/-- Set the nonce (`SetNonce`). -/
def SetNonce (s : TxnState) (a : Nat) (n : Nat) : TxnState :=
  upsertAccount s a fun o =>
    { o with Account := { o.Account with Nonce := n } }

/-- Nonce visible at an address, zero if absent (`GetNonce`). -/
def GetNonce (s : TxnState) (a : Nat) : Nat :=
  match getStateObject s a with
  | none => 0
  | some o => o.Account.Nonce

/-- Install code: store the bytes, recompute the code hash and set the
dirty-code flag (`SetCode`). -/
def SetCode (s : TxnState) (a : Nat) (code : List Nat) : TxnState :=
  upsertAccount s a fun o =>
    { o with Account := { o.Account with CodeHash := keccak256 code },
             DirtyCode := true, Code := code }

/-- Code visible at an address (`GetCode`): in-memory bytes when dirty, else
resolved through the snapshot by code hash. -/
def GetCode (s : TxnState) (a : Nat) : List Nat :=
  match getStateObject s a with
  | none => []
  | some o =>
    if o.DirtyCode then o.Code else s.snap.getCode o.Account.CodeHash a

/-- Mark an account as suicided (`Suicide`): returns `false` when the address
is absent or the flag is already set; a visible object always gets its
balance zeroed (and its flag set). -/
def Suicide (s : TxnState) (a : Nat) : Bool × TxnState :=
  match getStateObject s a with
  | none => (false, s)
  | some o =>
    let o' := { o with Suicide := true,
                       Account := { o.Account with Balance := 0 } }
    (!o.Suicide, { s with journal := jInsert (.addr a) (.obj o') s.journal })

/-- Whether the visible object carries the suicide flag (`HasSuicided`). -/
def HasSuicided (s : TxnState) (a : Nat) : Bool :=
  match getStateObject s a with
  | none => false
  | some o => o.Suicide

/-- Current refund counter, zero when the sentinel entry is absent
(`GetRefund`). -/
def GetRefund (s : TxnState) : Nat :=
  match jGet s.journal .refund with
  | some (.refund n) => n
  | _ => 0

/-- Add to the refund counter with `uint64` wrap-around (`AddRefund`). -/
def AddRefund (s : TxnState) (gas : Nat) : TxnState :=
  { s with journal :=
      jInsert .refund (.refund ((GetRefund s + gas) % 2 ^ 64)) s.journal }

/-- Subtract from the refund counter with `uint64` wrap-around
(`SubRefund`). -/
def SubRefund (s : TxnState) (gas : Nat) : TxnState :=
  let n := (GetRefund s + (2 ^ 64 - gas % 2 ^ 64)) % 2 ^ 64
  { s with journal := jInsert .refund (.refund n) s.journal }

/-- Append a log under the log sentinel key (`EmitLog`). -/
def EmitLog (s : TxnState) (a : Nat) (topics data : List Nat) : TxnState :=
  let logs := match jGet s.journal .log with
              | some (.logs l) => l
              | _ => []
  { s with journal :=
      jInsert .log (.logs (logs ++ [{ Address := a, Topics := topics,
                                      Data := data }])) s.journal }

/-- Return the accumulated logs and clear the entry; absent entry returns the
empty list without touching the journal (`Logs`). -/
def Logs (s : TxnState) : List Log × TxnState :=
  match jGet s.journal .log with
  | some (.logs l) => (l, { s with journal := jDelete .log s.journal })
  | _ => ([], s)

/-- Logs currently accumulated, without clearing (read-only view used to
state observational equality). -/
def LogsPeek (s : TxnState) : List Log :=
  match jGet s.journal .log with
  | some (.logs l) => l
  | _ => []

/-- Whether a non-deleted object is visible at the address (`Exist`). -/
def Exist (s : TxnState) (a : Nat) : Bool :=
  (getStateObject s a).isSome

/-- Storage slot visible at an address (`GetState`): overlay hit first (a
tombstone reads as zero), else a snapshot read on the object's storage root;
zero when the address is absent. -/
def GetState (s : TxnState) (a : Nat) (k : Nat) : Nat :=
  match getStateObject s a with
  | none => 0
  | some o =>
    match oGet o.Overlay k with
    | some none => 0
    | some (some v) => v
    | none => s.snap.getStorage a o.Account.Root k

/-- Write a storage slot into the overlay (`SetState`): a zero value is
recorded as a tombstone. -/
def SetState (s : TxnState) (a : Nat) (k : Nat) (v : Nat) : TxnState :=
  upsertAccount s a fun o =>
    { o with Overlay := oInsert k (if v = 0 then none else some v) o.Overlay }

/-- Committed (pre-transaction) value of a slot (`GetCommittedState`):
bypasses the overlay, reading the snapshot on the visible object's root. -/
def GetCommittedState (s : TxnState) (a : Nat) (k : Nat) : Nat :=
  match getStateObject s a with
  | none => 0
  | some o => s.snap.getStorage a o.Account.Root k

/-- Whether the given revision is active (`isRevision`): true iff the
transaction's revision is at least the given one. -/
def isRevision (s : TxnState) (rev : Nat) : Bool :=
  rev ≤ s.rev

/-- The storage-status and refund state machine (`SetStorage`). Mirrors the
Go control flow: early `unchanged` return, the write, the legacy branch, the
first-write branch and the second-write refund adjustments. -/
def SetStorage (s : TxnState) (a : Nat) (k : Nat) (value : Nat) :
    StorageStatus × TxnState :=
  let oldValue := GetState s a k
  if oldValue = value then (.unchanged, s)
  else
    let current := oldValue
    let original := GetCommittedState s a k
    let s := SetState s a k value
    let isIstanbul := isRevision s Istanbul
    let legacyGasMetering :=
      !isIstanbul && (isRevision s Petersburg || !isRevision s Constantinople)
    if legacyGasMetering then
      if oldValue = 0 then (.added, s)
      else if value = 0 then (.deleted, AddRefund s 15000)
      else (.modified, s)
    else
      if original = current then
        if original = 0 then (.added, s)
        else if value = 0 then (.deleted, AddRefund s 15000)
        else (.modified, s)
      else
        let s :=
          if original ≠ 0 then
            if current = 0 then SubRefund s 15000
            else if value = 0 then AddRefund s 15000
            else s
          else s
        let s :=
          if original = value then
            if original = 0 then
              if isIstanbul then AddRefund s 19200 else AddRefund s 19800
            else
              if isIstanbul then AddRefund s 4200 else AddRefund s 4800
          else s
        (.modifiedAgain, s)

/-- Materialise the object at an address without changing it
(`TouchAccount`). -/
def TouchAccount (s : TxnState) (a : Nat) : TxnState :=
  upsertAccount s a id

/-- Install a fresh object at an address, preserving any previously visible
balance (`CreateAccount`). -/
def CreateAccount (s : TxnState) (a : Nat) : TxnState :=
  let obj :=
    match getStateObject s a with
    | some prev =>
      { freshStateObject with
          Account := { freshStateObject.Account with
                         Balance := prev.Account.Balance } }
    | none => freshStateObject
  { s with journal := jInsert (.addr a) (.obj obj) s.journal }

/-- Modelled from the spec: `stateObject.Empty` is declared in a repository
file not present under `src/`; invariant 2 of the spec defines it as
`balance == 0 ∧ nonce == 0 ∧ code_hash == EMPTY_CODE_HASH`. -/
def accountEmpty (o : StateObject) : Bool :=
  o.Account.Balance = 0 && o.Account.Nonce = 0 &&
    o.Account.CodeHash = EmptyCodeHash

/-- Publish the current journal as an immutable version and return its index
(`Snapshot`). -/
def TakeSnapshot (s : TxnState) : Nat × TxnState :=
  (s.snapshots.length, { s with snapshots := s.snapshots ++ [s.journal] })

/-- Restore the journal to a published version (`RevertToSnapshot`). The Go
code panics for `id > len` explicitly and for `id == len` or negative `id`
through out-of-range indexing; all three are modelled as `none`. The list of
published versions is not truncated. -/
def RevertToSnapshot (s : TxnState) (id : Int) : Option TxnState :=
  if id < 0 then none
  else
    match s.snapshots[id.toNat]? with
    | none => none
    | some j => some { s with journal := j }

/-- First phase of `CleanDeleteObjects`: walk the journal and collect the
keys of every state object that is suicided or (when requested) empty
(`a.Suicide || a.Empty() && deleteEmptyObjects`). -/
def removeKeys (j : Journal) (deleteEmptyObjects : Bool) : List JKey :=
  j.filterMap fun e =>
    match e.2 with
    | .obj o =>
      if o.Suicide || (accountEmpty o && deleteEmptyObjects) then some e.1
      else none
    | _ => none

/-- Second phase of `CleanDeleteObjects`: look each collected key up and
reinsert a copy with the deleted flag set.  A failing lookup is a Go panic
("it should not happen"), unreachable because the keys were just walked;
the fold leaves the journal unchanged there. -/
def markDeleted (j : Journal) (remove : List JKey) : Journal :=
  remove.foldl (fun j k =>
    match jGet j k with
    | some (.obj o) => jInsert k (.obj { o with Deleted := true }) j
    | _ => j) j

/-- Mark for deletion every journal object that is suicided or (when
requested) empty, then drop the refund sentinel (`CleanDeleteObjects`). -/
def CleanDeleteObjects (s : TxnState) (deleteEmptyObjects : Bool) : TxnState :=
  let j := markDeleted s.journal (removeKeys s.journal deleteEmptyObjects)
  { s with journal := jDelete .refund j }

/-- A serialized storage slot change (`StorageObject`): tombstones carry
`Deleted = true` and no value. -/
structure StorageObject where
  Key : Nat
  Deleted : Bool
  Val : Option Nat
deriving DecidableEq, Repr

/-- A serialized account change (`Object`). -/
structure Object where
  Nonce : Nat
  Address : Nat
  Balance : Nat
  Root : Nat
  CodeHash : Nat
  DirtyCode : Bool
  Code : List Nat
  Deleted : Bool
  Storage : List StorageObject
deriving DecidableEq, Repr

/-- Build one serialized slot entry from an overlay entry. -/
def mkStorageObject (k : Nat) (v : Option Nat) : StorageObject :=
  match v with
  | none => { Key := k, Deleted := true, Val := none }
  | some x => { Key := k, Deleted := false, Val := some x }

/-- The address `BytesToAddress` recovers from a journal key: address keys
give back the address; the 32-byte sentinel keys truncate to their last 20
bytes (values 2 and 3).  Unreachable for well-formed journals, where
sentinel keys never hold state objects. -/
def keyAddr : JKey → Nat
  | .addr a => a
  | .log => 2
  | .refund => 3

/-- Build the serialized object for one journal entry (`Commit` walk body):
a deleted object carries no storage entries, otherwise the overlay is walked
in ascending key order. -/
def mkObject (a : Nat) (o : StateObject) : Object :=
  { Nonce := o.Account.Nonce, Address := a, Balance := o.Account.Balance,
    Root := o.Account.Root, CodeHash := o.Account.CodeHash,
    DirtyCode := o.DirtyCode, Code := o.Code, Deleted := o.Deleted,
    Storage :=
      if o.Deleted then []
      else o.Overlay.map fun e => mkStorageObject e.1 e.2 }

/-- Walk the final journal in key order and emit the serialized objects,
skipping entries that are not state objects (`Commit`). -/
def Commit (s : TxnState) : List Object :=
  s.journal.filterMap fun e =>
    match e.2 with
    | .obj o => some (mkObject (keyAddr e.1) o)
    | _ => none

/-- Ops of the public `Txn` API that may run between a snapshot and a
revert; `Commit` consumes the transaction and is deliberately absent. -/
inductive Op where
  | addSealingReward (a v : Nat)
  | addBalance (a v : Nat)
  | subBalance (a v : Nat)
  | setBalance (a v : Nat)
  | incrNonce (a : Nat)
  | setNonce (a n : Nat)
  | setCode (a : Nat) (code : List Nat)
  | suicide (a : Nat)
  | touchAccount (a : Nat)
  | createAccount (a : Nat)
  | setState (a k v : Nat)
  | setStorage (a k v : Nat)
  | emitLog (a : Nat) (topics data : List Nat)
  | takeLogs
  | addRefund (g : Nat)
  | subRefund (g : Nat)
  | cleanDeleteObjects (b : Bool)
  | snapshot
  | revertTo (id : Int)
deriving DecidableEq, Repr

/-- Run one op; `none` models a Go panic (only `revertTo` can panic). -/
def applyOp (s : TxnState) : Op → Option TxnState
  | .addSealingReward a v => some (AddSealingReward s a v)
  | .addBalance a v => some (AddBalance s a v)
  | .subBalance a v => some (SubBalance s a v).2
  | .setBalance a v => some (SetBalance s a v)
  | .incrNonce a => some (IncrNonce s a)
  | .setNonce a n => some (SetNonce s a n)
  | .setCode a code => some (SetCode s a code)
  | .suicide a => some (Suicide s a).2
  | .touchAccount a => some (TouchAccount s a)
  | .createAccount a => some (CreateAccount s a)
  | .setState a k v => some (SetState s a k v)
  | .setStorage a k v => some (SetStorage s a k v).2
  | .emitLog a topics data => some (EmitLog s a topics data)
  | .takeLogs => some (Logs s).2
  | .addRefund g => some (AddRefund s g)
  | .subRefund g => some (SubRefund s g)
  | .cleanDeleteObjects b => some (CleanDeleteObjects s b)
  | .snapshot => some (TakeSnapshot s).2
  | .revertTo id => RevertToSnapshot s id

/-- Run a list of ops, propagating panics. -/
def applyOps (s : TxnState) : List Op → Option TxnState
  | [] => some s
  | op :: ops =>
    match applyOp s op with
    | none => none
    | some t => applyOps t ops

/-- The object `upsertAccount` hands to its mutator: the visible object, or
a fresh one when the address is absent. -/
def visibleObj (s : TxnState) (a : Nat) : StateObject :=
  (getStateObject s a).getD freshStateObject

-- Concrete states used by the witnesses.

/-- A committed snapshot holding a single account (balance 50) at address 1,
with all storage slots zero. -/
def snapA : SnapshotData :=
  { getAccount := fun a =>
      if a = 1 then
        some { Balance := 50, Nonce := 0, CodeHash := EmptyCodeHash,
               Root := EmptyStateHash }
      else none
    getStorage := fun _ _ _ => 0
    getCode := fun _ _ => [] }

/-- A fresh Istanbul transaction over `snapA`. -/
def stateA : TxnState :=
  { snap := snapA, snapshots := [], journal := [], rev := Istanbul }

/-- `stateA` after suiciding address 1. -/
def stateA1 : TxnState := (Suicide stateA 1).2

/-- A committed snapshot holding the account at address 1 with every storage
slot committed as 5. -/
def snapB : SnapshotData :=
  { getAccount := fun a =>
      if a = 1 then
        some { Balance := 50, Nonce := 0, CodeHash := EmptyCodeHash,
               Root := EmptyStateHash }
      else none
    getStorage := fun _ _ _ => 5
    getCode := fun _ _ => [] }

/-- A fresh Petersburg transaction over `snapB`. -/
def stateB : TxnState :=
  { snap := snapB, snapshots := [], journal := [], rev := Petersburg }

/-- `stateA` after one snapshot (one published version). -/
def stateC : TxnState := (TakeSnapshot stateA).2

/-- `stateA` after setting balance 100 at address 5. -/
def c5pre : TxnState := SetBalance stateA 5 100

/-- `c5pre` after a snapshot followed by setting balance 200 at address 5. -/
def c5t : TxnState := SetBalance (TakeSnapshot c5pre).2 5 200

/-- Adjacent-key strict ordering check for a slot overlay (the invariant
the per-object `iradix` txn maintains on its walk order). -/
def overlaySorted : List (Nat × Option Nat) → Bool
  | [] => true
  | [_] => true
  | e1 :: e2 :: rest => decide (e1.1 < e2.1) && overlaySorted (e2 :: rest)

/-- Adjacent-rank strict ordering check for the journal (the invariant the
`iradix` tree maintains: walk order is strictly ascending key order). -/
def journalSorted : Journal → Bool
  | [] => true
  | [_] => true
  | e1 :: e2 :: rest => decide (e1.1.rank < e2.1.rank) && journalSorted (e2 :: rest)

/-- Key/value discipline of one journal entry: state objects live under
address keys (with sorted overlays), log lists and the refund counter under
their sentinel keys. -/
def entryWF : JKey × JVal → Bool
  | (.addr _, .obj o) => overlaySorted o.Overlay
  | (.log, .logs _) => true
  | (.refund, .refund _) => true
  | _ => false

/-- Well-formed journal: sorted, with disciplined entries. -/
def journalWF (j : Journal) : Bool :=
  journalSorted j && j.all entryWF

/-- A suicided object holding leftover fields, for the clean-delete
witness. -/
def c9objSuic : StateObject :=
  { Account := { Balance := 4, Nonce := 3, CodeHash := EmptyCodeHash,
                 Root := EmptyStateHash }
    Code := [], DirtyCode := false, Suicide := true, Deleted := false,
    Overlay := [] }

/-- A live, non-empty object, for the clean-delete witness. -/
def c9objLive : StateObject :=
  { Account := { Balance := 8, Nonce := 2, CodeHash := EmptyCodeHash,
                 Root := EmptyStateHash }
    Code := [], DirtyCode := false, Suicide := false, Deleted := false,
    Overlay := [] }

/-- A transaction whose journal holds a suicided object, the sentinels, an
empty object and a live object. -/
def c9state : TxnState :=
  { snap := snapA, snapshots := [], rev := Istanbul,
    journal := [(JKey.addr 0, JVal.obj c9objSuic), (JKey.log, JVal.logs []),
                (JKey.refund, JVal.refund 77),
                (JKey.addr 2, JVal.obj freshStateObject),
                (JKey.addr 5, JVal.obj c9objLive)] }

/-- An object with a two-entry overlay (a value and a tombstone), for the
commit witness. -/
def c7objOverlay : StateObject :=
  { Account := { Balance := 9, Nonce := 1, CodeHash := EmptyCodeHash,
                 Root := EmptyStateHash }
    Code := [], DirtyCode := false, Suicide := false, Deleted := false,
    Overlay := [(1, some 7), (4, none)] }

/-- A deleted object that still carries an overlay, for the commit
witness. -/
def c7objDel : StateObject :=
  { Account := { Balance := 2, Nonce := 6, CodeHash := EmptyCodeHash,
                 Root := EmptyStateHash }
    Code := [], DirtyCode := false, Suicide := true, Deleted := true,
    Overlay := [(9, some 3)] }

/-- A transaction whose journal holds two live objects, both sentinels and
a deleted object, for the commit witness. -/
def c7state : TxnState :=
  { snap := snapA, snapshots := [], rev := Istanbul,
    journal := [(JKey.addr 0, JVal.obj c7objOverlay),
                (JKey.log, JVal.logs []), (JKey.refund, JVal.refund 21),
                (JKey.addr 3, JVal.obj c7objDel),
                (JKey.addr 9, JVal.obj c7objOverlay)] }

-- ### Journal lemmas

/-- Looking up the key just inserted returns the inserted value. -/
theorem jGet_jInsert_self (j : Journal) (k : JKey) (v : JVal) :
    jGet (jInsert k v j) k = some v := by
  induction j with
  | nil => simp [jInsert, jGet]
  | cons e rest ih =>
    by_cases h1 : k.rank < e.1.rank
    · simp [jInsert, h1, jGet]
    · by_cases h2 : k = e.1
      · simp [jInsert, h1, h2, jGet]
      · simp [jInsert, h1, h2, jGet, Ne.symm h2, ih]

/-- Inserting at one key leaves lookups at any other key unchanged. -/
theorem jGet_jInsert_ne (j : Journal) {k k' : JKey} (v : JVal) (h : k ≠ k') :
    jGet (jInsert k v j) k' = jGet j k' := by
  induction j with
  | nil => simp [jInsert, jGet, h]
  | cons e rest ih =>
    by_cases h1 : k.rank < e.1.rank
    · simp [jInsert, h1, jGet, h]
    · by_cases h2 : k = e.1
      · subst h2
        simp [jInsert, h1, jGet, h]
      · simp [jInsert, h1, h2, jGet, ih]

/-- Deleting a key removes it from lookups. -/
theorem jGet_jDelete_self (j : Journal) (k : JKey) :
    jGet (jDelete k j) k = none := by
  induction j with
  | nil => simp [jDelete, jGet]
  | cons e rest ih =>
    by_cases h : e.1 = k
    · simpa [jDelete, List.filter_cons, h] using ih
    · simpa [jDelete, List.filter_cons, h, jGet] using ih

/-- Deleting one key leaves lookups at any other key unchanged. -/
theorem jGet_jDelete_ne (j : Journal) {k k' : JKey} (h : k ≠ k') :
    jGet (jDelete k j) k' = jGet j k' := by
  induction j with
  | nil => simp [jDelete, jGet]
  | cons e rest ih =>
    by_cases he : e.1 = k
    · simpa [jDelete, List.filter_cons, jGet, he, h] using ih
    · by_cases he' : e.1 = k'
      · simp [jDelete, List.filter_cons, jGet, he, he', Ne.symm h]
      · simpa [jDelete, List.filter_cons, jGet, he, he'] using ih

/-- Overlay lookup after inserting the same key. -/
theorem oGet_oInsert_self (ov : List (Nat × Option Nat)) (k : Nat)
    (v : Option Nat) : oGet (oInsert k v ov) k = some v := by
  induction ov with
  | nil => simp [oInsert, oGet]
  | cons e rest ih =>
    by_cases h1 : k < e.1
    · simp [oInsert, h1, oGet]
    · by_cases h2 : k = e.1
      · simp [oInsert, h1, h2, oGet]
      · simp [oInsert, h1, h2, oGet, Ne.symm h2, ih]

/-- Overlay lookup at a different key after an insert. -/
theorem oGet_oInsert_ne (ov : List (Nat × Option Nat)) {k k' : Nat}
    (v : Option Nat) (h : k ≠ k') :
    oGet (oInsert k v ov) k' = oGet ov k' := by
  induction ov with
  | nil => simp [oInsert, oGet, h]
  | cons e rest ih =>
    by_cases h1 : k < e.1
    · simp [oInsert, h1, oGet, h]
    · by_cases h2 : k = e.1
      · subst h2
        simp [oInsert, h1, oGet, h]
      · simp [oInsert, h1, h2, oGet, ih]

-- ### State-level helper lemmas

/-- A visible object never carries the deleted flag. -/
theorem getStateObject_deleted_false {s : TxnState} {a : Nat} {o : StateObject}
    (h : getStateObject s a = some o) : o.Deleted = false := by
  unfold getStateObject at h
  revert h
  match hj : jGet s.journal (.addr a) with
  | some (.obj o') =>
    by_cases hd : o'.Deleted <;> intro h <;> simp [hd] at h
    · simpa [← h] using hd
  | some (.logs l) => intro h; cases h
  | some (.refund n) => intro h; cases h
  | none =>
    match hs : s.snap.getAccount a with
    | none => intro h; cases h
    | some acct => intro h; simp at h; simp [← h]

/-- The fallback object handed to mutators is never deleted. -/
theorem visibleObj_deleted_false (s : TxnState) (a : Nat) :
    (visibleObj s a).Deleted = false := by
  unfold visibleObj
  cases h : getStateObject s a with
  | none => rfl
  | some o => simpa using getStateObject_deleted_false h

/-- Normal form of `upsertAccount`: one journal insert of the mutated
visible-or-fresh object. -/
theorem upsertAccount_eq (s : TxnState) (a : Nat) (f : StateObject → StateObject) :
    upsertAccount s a f =
      { s with journal := jInsert (.addr a) (.obj (f (visibleObj s a))) s.journal } := by
  unfold upsertAccount visibleObj
  cases getStateObject s a <;> simp

/-- Resolving the address just written returns the written object (when it
is not flagged deleted). -/
theorem getStateObject_insert_obj (s : TxnState) (o : StateObject) (a : Nat) :
    getStateObject { s with journal := jInsert (.addr a) (.obj o) s.journal } a =
      if o.Deleted then none else some o := by
  simp [getStateObject, jGet_jInsert_self]

/-- Inserting under a different key does not change object resolution. -/
theorem getStateObject_insert_ne (s : TxnState) {k : JKey} (v : JVal) (a : Nat)
    (h : k ≠ .addr a) :
    getStateObject { s with journal := jInsert k v s.journal } a =
      getStateObject s a := by
  simp [getStateObject, jGet_jInsert_ne _ _ h]

/-- The refund counter ignores inserts under other keys. -/
theorem GetRefund_insert_ne (s : TxnState) {k : JKey} (v : JVal)
    (h : k ≠ .refund) :
    GetRefund { s with journal := jInsert k v s.journal } = GetRefund s := by
  simp [GetRefund, jGet_jInsert_ne _ _ h]

/-- Refund counter after `AddRefund`. -/
theorem GetRefund_AddRefund (s : TxnState) (g : Nat) :
    GetRefund (AddRefund s g) = (GetRefund s + g) % 2 ^ 64 := by
  simp [AddRefund, GetRefund, jGet_jInsert_self]

/-- Refund counter after an `upsertAccount` (an address-key insert). -/
theorem GetRefund_upsertAccount (s : TxnState) (a : Nat)
    (f : StateObject → StateObject) :
    GetRefund (upsertAccount s a f) = GetRefund s := by
  rw [upsertAccount_eq]
  exact GetRefund_insert_ne s _ (by simp)

/-- Refund counter after `SetState`. -/
theorem GetRefund_SetState (s : TxnState) (a k v : Nat) :
    GetRefund (SetState s a k v) = GetRefund s :=
  GetRefund_upsertAccount s a _

/-- Object resolution after `SetState` at the written address. -/
theorem getStateObject_SetState_self (s : TxnState) (a k v : Nat) :
    getStateObject (SetState s a k v) a =
      some { visibleObj s a with
               Overlay := oInsert k (if v = 0 then none else some v)
                 (visibleObj s a).Overlay } := by
  unfold SetState
  rw [upsertAccount_eq, getStateObject_insert_obj]
  simp [visibleObj_deleted_false]

/-- The slot just written reads back as the written value (tombstones read
as zero). -/
theorem GetState_SetState_self (s : TxnState) (a k v : Nat) :
    GetState (SetState s a k v) a k = v := by
  rw [GetState, getStateObject_SetState_self]
  by_cases hv : v = 0 <;> simp [hv, oGet_oInsert_self]

/-- The written address is visible after `SetState`. -/
theorem Exist_SetState_self (s : TxnState) (a k v : Nat) :
    Exist (SetState s a k v) a = true := by
  simp [Exist, getStateObject_SetState_self]

/-- `SetState` does not move the storage root, hence committed reads at a
visible address are unchanged. -/
theorem GetCommittedState_SetState_of_visible (s : TxnState) {a : Nat}
    {o : StateObject} (h : getStateObject s a = some o) (k v k' : Nat) :
    GetCommittedState (SetState s a k v) a k' = GetCommittedState s a k' := by
  rw [GetCommittedState, getStateObject_SetState_self, GetCommittedState, h]
  simp [visibleObj, h, SetState, upsertAccount_eq]

/-- Revision is untouched by `upsertAccount`. -/
theorem rev_upsertAccount (s : TxnState) (a : Nat)
    (f : StateObject → StateObject) : (upsertAccount s a f).rev = s.rev := by
  rw [upsertAccount_eq]

/-- Revision is untouched by `SetState`. -/
theorem rev_SetState (s : TxnState) (a k v : Nat) :
    (SetState s a k v).rev = s.rev :=
  rev_upsertAccount s a _

/-- Object resolution ignores `AddRefund`. -/
theorem getStateObject_AddRefund (s : TxnState) (g : Nat) (a : Nat) :
    getStateObject (AddRefund s g) a = getStateObject s a := by
  unfold AddRefund
  exact getStateObject_insert_ne s _ a (by simp)

/-- Object resolution ignores `SubRefund`. -/
theorem getStateObject_SubRefund (s : TxnState) (g : Nat) (a : Nat) :
    getStateObject (SubRefund s g) a = getStateObject s a := by
  unfold SubRefund
  exact getStateObject_insert_ne s _ a (by simp)

/-- Storage reads ignore `AddRefund`. -/
theorem GetState_AddRefund (s : TxnState) (g a k : Nat) :
    GetState (AddRefund s g) a k = GetState s a k := by
  unfold GetState
  rw [getStateObject_AddRefund]
  simp only [AddRefund]

/-- Storage reads ignore `SubRefund`. -/
theorem GetState_SubRefund (s : TxnState) (g a k : Nat) :
    GetState (SubRefund s g) a k = GetState s a k := by
  unfold GetState
  rw [getStateObject_SubRefund]
  simp only [SubRefund]

/-- The visible object of a resolvable address. -/
theorem visibleObj_of_some {s : TxnState} {a : Nat} {o : StateObject}
    (h : getStateObject s a = some o) : visibleObj s a = o := by
  simp [visibleObj, h]

/-- The fallback object's balance is the visible balance. -/
theorem visibleObj_balance (s : TxnState) (a : Nat) :
    (visibleObj s a).Account.Balance = GetBalance s a := by
  unfold visibleObj GetBalance
  cases getStateObject s a <;> simp [freshStateObject]

/-- Object resolution after an `upsertAccount` whose result is not flagged
deleted. -/
theorem getStateObject_upsert_self (s : TxnState) (a : Nat)
    (f : StateObject → StateObject)
    (hd : (f (visibleObj s a)).Deleted = false) :
    getStateObject (upsertAccount s a f) a = some (f (visibleObj s a)) := by
  rw [upsertAccount_eq, getStateObject_insert_obj, hd]
  simp

/-- Balance after an `upsertAccount` whose result is not flagged deleted. -/
theorem GetBalance_upsert_self (s : TxnState) (a : Nat)
    (f : StateObject → StateObject)
    (hd : (f (visibleObj s a)).Deleted = false) :
    GetBalance (upsertAccount s a f) a = (f (visibleObj s a)).Account.Balance := by
  rw [GetBalance, getStateObject_upsert_self s a f hd]

/-- Every path of `SetStorage` leaves the written slot reading back as the
written value. -/
theorem GetState_SetStorage (s : TxnState) (a k v : Nat) :
    GetState (SetStorage s a k v).2 a k = v := by
  by_cases h : GetState s a k = v
  · simp [SetStorage, h]
  · simp only [SetStorage, h, if_false]
    split_ifs <;>
      simp [GetState_AddRefund, GetState_SubRefund, GetState_SetState_self]

-- ### C3

/-- C3: a `set_storage` whose value equals the current visible slot value
returns `Unchanged` and performs no state change at all (no overlay write,
no refund change); consequently a repeated `set_storage(a,k,v)` returns
`Unchanged` the second time, whatever the first call did. -/
theorem setStorage_unchanged_idempotent (s : TxnState) (a k v : Nat) :
    (GetState s a k = v → SetStorage s a k v = (StorageStatus.unchanged, s)) ∧
    (SetStorage (SetStorage s a k v).2 a k v).1 = StorageStatus.unchanged := by
  constructor
  · intro h
    simp [SetStorage, h]
  · have h := GetState_SetStorage s a k v
    set t := (SetStorage s a k v).2 with ht
    simp [SetStorage, h]

/-- Witness for C3 at a concrete state: slot (1,0) currently reads 0, so
writing 0 is `Unchanged` and leaves the state untouched, and a repeated
write of 7 is `Unchanged` the second time. -/
theorem setStorage_unchanged_idempotent_witness :
    GetState stateA 1 0 = 0 ∧
    SetStorage stateA 1 0 0 = (StorageStatus.unchanged, stateA) ∧
    (SetStorage (SetStorage stateA 1 0 7).2 1 0 7).1 = StorageStatus.unchanged :=
  ⟨by decide, (setStorage_unchanged_idempotent stateA 1 0 0).1 (by decide),
   (setStorage_unchanged_idempotent stateA 1 0 7).2⟩

-- ### C4

/-- C4: `sub_balance(a,v)` is a no-op for `v = 0`; fails with
`notEnoughFunds` leaving the whole transaction state unchanged when the
visible balance is below `v`; otherwise succeeds and decreases the balance
by exactly `v`. -/
theorem subBalance_spec (s : TxnState) (a v : Nat) :
    (v = 0 → SubBalance s a v = (none, s)) ∧
    (GetBalance s a < v →
       SubBalance s a v = (some RuntimeError.notEnoughFunds, s)) ∧
    (v ≠ 0 → v ≤ GetBalance s a →
       (SubBalance s a v).1 = none ∧
       GetBalance (SubBalance s a v).2 a + v = GetBalance s a) := by
  refine ⟨fun h => by simp [SubBalance, h], fun h => ?_, fun hv hle => ?_⟩
  · have hv : ¬v = 0 := by omega
    simp [SubBalance, hv, h]
  · have hlt : ¬GetBalance s a < v := by omega
    refine ⟨by simp [SubBalance, hv, hlt], ?_⟩
    have hd : ((fun o : StateObject => { o with Account :=
        { o.Account with Balance := o.Account.Balance - v } })
          (visibleObj s a)).Deleted = false := visibleObj_deleted_false s a
    simp only [SubBalance, hv, hlt, if_false]
    rw [GetBalance_upsert_self s a _ hd]
    simp [visibleObj_balance]
    omega

/-- Witness for C4 at a concrete state: address 1 holds balance 50; a zero
deduction is a no-op, deducting 100 fails with `notEnoughFunds` leaving the
state unchanged, and deducting 20 leaves balance 30. -/
theorem subBalance_spec_witness :
    SubBalance stateA 1 0 = (none, stateA) ∧
    (GetBalance stateA 1 < 100 ∧
       SubBalance stateA 1 100 = (some RuntimeError.notEnoughFunds, stateA)) ∧
    ((SubBalance stateA 1 20).1 = none ∧
       GetBalance (SubBalance stateA 1 20).2 1 + 20 = GetBalance stateA 1) :=
  ⟨(subBalance_spec stateA 1 0).1 rfl,
   ⟨by decide, (subBalance_spec stateA 1 100).2.1 (by decide)⟩,
   (subBalance_spec stateA 1 20).2.2 (by decide) (by decide)⟩

-- ### C8

/-- C8: `create_account(a)` installs a fresh object whose balance is the
previously visible balance at `a` (zero if absent), with nonce 0, empty
code (`EmptyCodeHash`, no bytes), storage root `EmptyStateHash`, empty slot
overlay and all flags cleared. -/
theorem createAccount_spec (s : TxnState) (a : Nat) :
    getStateObject (CreateAccount s a) a =
      some { Account := { Balance := GetBalance s a, Nonce := 0,
                          CodeHash := EmptyCodeHash, Root := EmptyStateHash },
             Code := [], DirtyCode := false, Suicide := false,
             Deleted := false, Overlay := [] } := by
  cases h : getStateObject s a <;>
    simp [CreateAccount, h, getStateObject_insert_obj, freshStateObject,
      GetBalance]

-- ### C10

/-- C10: `suicide(a)` on a visible account whose suicide flag is already set
returns `false` but still zeroes the balance; consequently, after
`suicide(a); add_balance(a,v); suicide(a)` with `v > 0`, the second call
returns `false` and the visible balance is 0. -/
theorem suicide_resuicide_spec (s : TxnState) (a v : Nat)
    (hex : Exist s a = true) :
    (HasSuicided s a = true →
       (Suicide s a).1 = false ∧ GetBalance (Suicide s a).2 a = 0) ∧
    (0 < v →
       (Suicide (AddBalance (Suicide s a).2 a v) a).1 = false ∧
       GetBalance (Suicide (AddBalance (Suicide s a).2 a v) a).2 a = 0) := by
  rw [Exist, Option.isSome_iff_exists] at hex
  obtain ⟨o, ho⟩ := hex
  have hdel : o.Deleted = false := getStateObject_deleted_false ho
  have h1 : getStateObject (Suicide s a).2 a =
      some { o with Suicide := true,
                    Account := { o.Account with Balance := 0 } } := by
    simp only [Suicide, ho]
    rw [getStateObject_insert_obj]
    simp [hdel]
  constructor
  · intro hs
    simp only [HasSuicided, ho] at hs
    refine ⟨by simp [Suicide, ho, hs], ?_⟩
    rw [GetBalance, h1]
  · intro _
    set s1 := (Suicide s a).2 with hs1
    set s2 := AddBalance s1 a v with hs2
    have h2 : getStateObject s2 a =
        some { o with Suicide := true,
                      Account := { o.Account with Balance := 0 + v } } := by
      rw [hs2]
      unfold AddBalance
      rw [getStateObject_upsert_self _ _ _
        (by rw [visibleObj_of_some h1]; exact hdel)]
      rw [visibleObj_of_some h1]
    constructor
    · simp [Suicide, h2]
    · simp only [Suicide, h2]
      rw [GetBalance, getStateObject_insert_obj]
      simp [hdel]

/-- Witness for C10: address 1 of `stateA1` is visible and already
suicided; re-suiciding returns false with balance 0, and the
suicide–credit–suicide sequence with v = 5 ends with balance 0. -/
theorem suicide_resuicide_spec_witness :
    Exist stateA1 1 = true ∧ HasSuicided stateA1 1 = true ∧
    (Suicide stateA1 1).1 = false ∧ GetBalance (Suicide stateA1 1).2 1 = 0 ∧
    (Suicide (AddBalance (Suicide stateA1 1).2 1 5) 1).1 = false ∧
    GetBalance (Suicide (AddBalance (Suicide stateA1 1).2 1 5) 1).2 1 = 0 := by
  have h := suicide_resuicide_spec stateA1 1 5 (by decide)
  have h1 := h.1 (by decide)
  have h2 := h.2 (by decide)
  exact ⟨by decide, by decide, h1.1, h1.2, h2.1, h2.2⟩

-- ### C2

/-- C2: under legacy gas metering (revision before Constantinople, or
Petersburg) a storage write with `new ≠ current` returns `Added` when the
current value is zero; otherwise clearing the slot refunds 15000 and
returns `Deleted`; otherwise it returns `Modified` with no refund change. -/
theorem setStorage_legacy_spec (s : TxnState) (a k v : Nat)
    (hleg : s.rev < Constantinople ∨ s.rev = Petersburg)
    (hne : GetState s a k ≠ v) :
    (GetState s a k = 0 → (SetStorage s a k v).1 = StorageStatus.added) ∧
    (GetState s a k ≠ 0 → v = 0 → GetRefund s + 15000 < 2 ^ 64 →
       (SetStorage s a k v).1 = StorageStatus.deleted ∧
       GetRefund (SetStorage s a k v).2 = GetRefund s + 15000) ∧
    (GetState s a k ≠ 0 → v ≠ 0 →
       (SetStorage s a k v).1 = StorageStatus.modified ∧
       GetRefund (SetStorage s a k v).2 = GetRefund s) := by
  simp only [Constantinople, Petersburg] at hleg
  have hIst : isRevision (SetState s a k v) Istanbul = false := by
    unfold isRevision Istanbul
    rw [rev_SetState]
    simp only [decide_eq_false_iff_not]
    omega
  have hL : (!isRevision (SetState s a k v) Istanbul &&
      (isRevision (SetState s a k v) Petersburg ||
       !isRevision (SetState s a k v) Constantinople)) = true := by
    rcases hleg with h | h
    · have hc : isRevision (SetState s a k v) Constantinople = false := by
        unfold isRevision Constantinople
        rw [rev_SetState]
        simp only [decide_eq_false_iff_not]
        omega
      simp [hIst, hc]
    · have hp : isRevision (SetState s a k v) Petersburg = true := by
        unfold isRevision Petersburg
        rw [rev_SetState]
        simp only [decide_eq_true_eq]
        omega
      simp [hIst, hp]
  refine ⟨fun h0 => ?_, fun h0 hv0 hbound => ?_, fun h0 hv0 => ?_⟩
  · have hne0 : ¬(0 : Nat) = v := by rw [← h0]; exact hne
    simp [SetStorage, hne, hL, h0, hne0]
  · subst hv0
    have hstep : SetStorage s a k 0 =
        (StorageStatus.deleted, AddRefund (SetState s a k 0) 15000) := by
      simp [SetStorage, hne, hL, h0]
    rw [hstep]
    refine ⟨rfl, ?_⟩
    rw [GetRefund_AddRefund, GetRefund_SetState, Nat.mod_eq_of_lt hbound]
  · have hstep : SetStorage s a k v =
        (StorageStatus.modified, SetState s a k v) := by
      simp [SetStorage, hne, hL, h0, hv0]
    rw [hstep]
    exact ⟨rfl, GetRefund_SetState s a k v⟩

/-- Witness for C2 on `stateB` (revision Petersburg, slot committed as 5):
clearing the slot returns `Deleted` and refunds exactly 15000. -/
theorem setStorage_legacy_spec_witness :
    GetState stateB 1 0 = 5 ∧
    (SetStorage stateB 1 0 0).1 = StorageStatus.deleted ∧
    GetRefund (SetStorage stateB 1 0 0).2 = GetRefund stateB + 15000 := by
  have h := (setStorage_legacy_spec stateB 1 0 0 (Or.inr (by decide))
    (by decide)).2.1 (by decide) rfl (by decide)
  exact ⟨by decide, h.1, h.2⟩

-- ### C1

/-- C1: on revision Istanbul, starting from a clean visible account whose
slot `k` is committed as zero, the sequence `set_storage(a,k,1);
set_storage(a,k,2); set_storage(a,k,0)` returns `Added`, `ModifiedAgain`,
`ModifiedAgain`; the first two calls leave the refund counter unchanged and
the third adds exactly 19200. -/
theorem setStorage_istanbul_reset_refund (s : TxnState) (a k : Nat)
    (hrev : s.rev = Istanbul) (hex : Exist s a = true)
    (hcomm : GetCommittedState s a k = 0) (hcur : GetState s a k = 0)
    (hbound : GetRefund s + 19200 < 2 ^ 64) :
    (SetStorage s a k 1).1 = StorageStatus.added ∧
    GetRefund (SetStorage s a k 1).2 = GetRefund s ∧
    (SetStorage (SetStorage s a k 1).2 a k 2).1 = StorageStatus.modifiedAgain ∧
    GetRefund (SetStorage (SetStorage s a k 1).2 a k 2).2 = GetRefund s ∧
    (SetStorage (SetStorage (SetStorage s a k 1).2 a k 2).2 a k 0).1 =
      StorageStatus.modifiedAgain ∧
    GetRefund (SetStorage (SetStorage (SetStorage s a k 1).2 a k 2).2 a k 0).2 =
      GetRefund s + 19200 := by
  rw [Exist, Option.isSome_iff_exists] at hex
  obtain ⟨o, ho⟩ := hex
  -- step 1: first write is a slot creation
  have hIst1 : isRevision (SetState s a k 1) Istanbul = true := by
    unfold isRevision
    rw [rev_SetState, hrev]
    decide
  have step1 : SetStorage s a k 1 = (StorageStatus.added, SetState s a k 1) := by
    simp [SetStorage, hcur, hcomm, hIst1]
  have e1s : (SetStorage s a k 1).2 = SetState s a k 1 := by rw [step1]
  -- facts about the state after step 1
  have h1cur : GetState (SetState s a k 1) a k = 1 := GetState_SetState_self s a k 1
  have h1comm : GetCommittedState (SetState s a k 1) a k = 0 := by
    rw [GetCommittedState_SetState_of_visible s ho k 1 k]
    exact hcomm
  have h1rev : (SetState s a k 1).rev = Istanbul := by rw [rev_SetState, hrev]
  have h1ref : GetRefund (SetState s a k 1) = GetRefund s := GetRefund_SetState s a k 1
  have h1ex : Exist (SetState s a k 1) a = true := Exist_SetState_self s a k 1
  rw [Exist, Option.isSome_iff_exists] at h1ex
  obtain ⟨o1, ho1⟩ := h1ex
  -- step 2: second write is a dirty modification, no refund paths taken
  have hIst2 : isRevision (SetState (SetState s a k 1) a k 2) Istanbul = true := by
    unfold isRevision
    rw [rev_SetState, rev_SetState, hrev]
    decide
  have step2 : SetStorage (SetState s a k 1) a k 2 =
      (StorageStatus.modifiedAgain, SetState (SetState s a k 1) a k 2) := by
    simp [SetStorage, h1cur, h1comm, hIst2]
  have e2s : (SetStorage (SetState s a k 1) a k 2).2 =
      SetState (SetState s a k 1) a k 2 := by rw [step2]
  -- facts about the state after step 2
  have h2cur : GetState (SetState (SetState s a k 1) a k 2) a k = 2 :=
    GetState_SetState_self (SetState s a k 1) a k 2
  have h2comm : GetCommittedState (SetState (SetState s a k 1) a k 2) a k = 0 := by
    rw [GetCommittedState_SetState_of_visible (SetState s a k 1) ho1 k 2 k]
    exact h1comm
  have h2rev : (SetState (SetState s a k 1) a k 2).rev = Istanbul := by
    rw [rev_SetState, h1rev]
  have h2ref : GetRefund (SetState (SetState s a k 1) a k 2) = GetRefund s := by
    rw [GetRefund_SetState, h1ref]
  -- step 3: third write resets to the original zero on Istanbul
  have hIst3 : isRevision (SetState (SetState (SetState s a k 1) a k 2) a k 0)
      Istanbul = true := by
    unfold isRevision
    rw [rev_SetState, rev_SetState, rev_SetState, hrev]
    decide
  have step3 : SetStorage (SetState (SetState s a k 1) a k 2) a k 0 =
      (StorageStatus.modifiedAgain,
       AddRefund (SetState (SetState (SetState s a k 1) a k 2) a k 0) 19200) := by
    simp [SetStorage, h2cur, h2comm, hIst3]
  refine ⟨by rw [step1], by rw [e1s, h1ref], ?_, ?_, ?_, ?_⟩
  · rw [e1s, step2]
  · rw [e1s, e2s, h2ref]
  · rw [e1s, e2s, step3]
  · rw [e1s, e2s, step3]
    simp only []
    rw [GetRefund_AddRefund, GetRefund_SetState, h2ref, Nat.mod_eq_of_lt hbound]

/-- Witness for C1 on `stateA` (revision Istanbul, account at address 1,
all slots committed as zero): the three statuses and the 19200 refund. -/
theorem setStorage_istanbul_reset_refund_witness :
    (SetStorage stateA 1 0 1).1 = StorageStatus.added ∧
    GetRefund (SetStorage stateA 1 0 1).2 = 0 ∧
    (SetStorage (SetStorage stateA 1 0 1).2 1 0 2).1 =
      StorageStatus.modifiedAgain ∧
    GetRefund (SetStorage (SetStorage stateA 1 0 1).2 1 0 2).2 = 0 ∧
    (SetStorage (SetStorage (SetStorage stateA 1 0 1).2 1 0 2).2 1 0 0).1 =
      StorageStatus.modifiedAgain ∧
    GetRefund (SetStorage (SetStorage (SetStorage stateA 1 0 1).2 1 0 2).2 1 0 0).2 =
      19200 := by
  have h := setStorage_istanbul_reset_refund stateA 1 0 rfl (by decide)
    (by decide) (by decide) (by decide)
  exact ⟨h.1, h.2.1, h.2.2.1, h.2.2.2.1, h.2.2.2.2.1, h.2.2.2.2.2⟩

-- ### C6

/-- C6: `revert_to(id)` fails fatally (modelled as `none`) exactly when `id`
is negative or at least the number of published snapshots; for every
in-range `id` it succeeds, restores the journal to version `id`, and leaves
the snapshot-version list (and everything else but the journal)
untouched. -/
theorem revertToSnapshot_spec (s : TxnState) (id : Int) :
    ((id < 0 ∨ (s.snapshots.length : Int) ≤ id) →
       RevertToSnapshot s id = none) ∧
    (0 ≤ id → id < (s.snapshots.length : Int) →
       ∃ t, RevertToSnapshot s id = some t ∧
         s.snapshots[id.toNat]? = some t.journal ∧
         t.snapshots = s.snapshots ∧ t.snap = s.snap ∧ t.rev = s.rev) := by
  constructor
  · rintro (h | h)
    · simp [RevertToSnapshot, h]
    · have hni : ¬id < 0 := by omega
      have hlen : s.snapshots.length ≤ id.toNat := by omega
      simp [RevertToSnapshot, hni, List.getElem?_eq_none hlen]
  · intro h0 hlt
    have hni : ¬id < 0 := by omega
    have hlt' : id.toNat < s.snapshots.length := by omega
    refine ⟨{ s with journal := s.snapshots[id.toNat] }, ?_, ?_, rfl, rfl, rfl⟩
    · simp [RevertToSnapshot, hni, List.getElem?_eq_getElem hlt']
    · simp [List.getElem?_eq_getElem hlt']

/-- Witness for C6 on `stateC` (exactly one published snapshot): id −1 and
id 1 are out of range and fail, id 0 succeeds and restores the journal. -/
theorem revertToSnapshot_spec_witness :
    RevertToSnapshot stateC (-1) = none ∧
    RevertToSnapshot stateC 1 = none ∧
    (∃ t, RevertToSnapshot stateC 0 = some t ∧
       stateC.snapshots[(0 : Int).toNat]? = some t.journal ∧
       t.snapshots = stateC.snapshots ∧ t.snap = stateC.snap ∧
       t.rev = stateC.rev) :=
  ⟨(revertToSnapshot_spec stateC (-1)).1 (Or.inl (by decide)),
   (revertToSnapshot_spec stateC 1).1 (Or.inr (by decide)),
   (revertToSnapshot_spec stateC 0).2 (by decide) (by decide)⟩

-- ### Frame lemmas: every op touches only the journal (apart from
-- `TakeSnapshot`, which appends one published version)

/-- The snapshot list, backing snapshot and revision survive any
`upsertAccount`. -/
theorem upsertAccount_frame (s : TxnState) (a : Nat)
    (f : StateObject → StateObject) :
    (upsertAccount s a f).snapshots = s.snapshots ∧
    (upsertAccount s a f).snap = s.snap ∧
    (upsertAccount s a f).rev = s.rev := by
  rw [upsertAccount_eq]
  exact ⟨rfl, rfl, rfl⟩

/-- Snapshot list after `SetState`. -/
theorem snapshots_SetState (s : TxnState) (a k v : Nat) :
    (SetState s a k v).snapshots = s.snapshots :=
  (upsertAccount_frame s a _).1

/-- Backing snapshot after `SetState`. -/
theorem snap_SetState (s : TxnState) (a k v : Nat) :
    (SetState s a k v).snap = s.snap :=
  (upsertAccount_frame s a _).2.1

/-- Snapshot list after `AddRefund`. -/
theorem snapshots_AddRefund (s : TxnState) (g : Nat) :
    (AddRefund s g).snapshots = s.snapshots := rfl

/-- Backing snapshot after `AddRefund`. -/
theorem snap_AddRefund (s : TxnState) (g : Nat) :
    (AddRefund s g).snap = s.snap := rfl

/-- Revision after `AddRefund`. -/
theorem rev_AddRefund (s : TxnState) (g : Nat) :
    (AddRefund s g).rev = s.rev := rfl

/-- Snapshot list after `SubRefund`. -/
theorem snapshots_SubRefund (s : TxnState) (g : Nat) :
    (SubRefund s g).snapshots = s.snapshots := rfl

/-- Backing snapshot after `SubRefund`. -/
theorem snap_SubRefund (s : TxnState) (g : Nat) :
    (SubRefund s g).snap = s.snap := rfl

/-- Revision after `SubRefund`. -/
theorem rev_SubRefund (s : TxnState) (g : Nat) :
    (SubRefund s g).rev = s.rev := rfl

/-- `SetStorage` touches only the journal. -/
theorem SetStorage_frame (s : TxnState) (a k v : Nat) :
    (SetStorage s a k v).2.snapshots = s.snapshots ∧
    (SetStorage s a k v).2.snap = s.snap ∧
    (SetStorage s a k v).2.rev = s.rev := by
  refine ⟨?_, ?_, ?_⟩
  · simp only [SetStorage, apply_ite Prod.snd, apply_ite TxnState.snapshots,
      snapshots_AddRefund, snapshots_SubRefund, snapshots_SetState, ite_self]
  · simp only [SetStorage, apply_ite Prod.snd, apply_ite TxnState.snap,
      snap_AddRefund, snap_SubRefund, snap_SetState, ite_self]
  · simp only [SetStorage, apply_ite Prod.snd, apply_ite TxnState.rev,
      rev_AddRefund, rev_SubRefund, rev_SetState, ite_self]

/-- `SubBalance` touches only the journal. -/
theorem SubBalance_frame (s : TxnState) (a v : Nat) :
    (SubBalance s a v).2.snapshots = s.snapshots ∧
    (SubBalance s a v).2.snap = s.snap ∧
    (SubBalance s a v).2.rev = s.rev := by
  unfold SubBalance
  split_ifs
  · exact ⟨rfl, rfl, rfl⟩
  · exact ⟨rfl, rfl, rfl⟩
  · exact upsertAccount_frame s a _

/-- `Suicide` touches only the journal. -/
theorem Suicide_frame (s : TxnState) (a : Nat) :
    (Suicide s a).2.snapshots = s.snapshots ∧
    (Suicide s a).2.snap = s.snap ∧
    (Suicide s a).2.rev = s.rev := by
  unfold Suicide
  cases getStateObject s a <;> exact ⟨rfl, rfl, rfl⟩

/-- `Logs` touches only the journal. -/
theorem Logs_frame (s : TxnState) :
    (Logs s).2.snapshots = s.snapshots ∧
    (Logs s).2.snap = s.snap ∧
    (Logs s).2.rev = s.rev := by
  unfold Logs
  cases h : jGet s.journal .log with
  | none => exact ⟨rfl, rfl, rfl⟩
  | some v => cases v <;> exact ⟨rfl, rfl, rfl⟩

/-- One op extends the published versions and preserves snapshot and
revision. -/
theorem applyOp_extends {s t : TxnState} {op : Op}
    (h : applyOp s op = some t) :
    (∃ l, t.snapshots = s.snapshots ++ l) ∧ t.snap = s.snap ∧
      t.rev = s.rev := by
  have frameOf : ∀ {u : TxnState}, u.snapshots = s.snapshots →
      u.snap = s.snap → u.rev = s.rev → (∃ l, u.snapshots = s.snapshots ++ l) ∧
      u.snap = s.snap ∧ u.rev = s.rev :=
    fun h1 h2 h3 => ⟨⟨[], by rw [h1, List.append_nil]⟩, h2, h3⟩
  cases op with
  | addSealingReward a v =>
    cases h
    exact frameOf (upsertAccount_frame s a _).1 (upsertAccount_frame s a _).2.1
      (upsertAccount_frame s a _).2.2
  | addBalance a v =>
    cases h
    exact frameOf (upsertAccount_frame s a _).1 (upsertAccount_frame s a _).2.1
      (upsertAccount_frame s a _).2.2
  | subBalance a v =>
    cases h
    exact frameOf (SubBalance_frame s a v).1 (SubBalance_frame s a v).2.1
      (SubBalance_frame s a v).2.2
  | setBalance a v =>
    cases h
    exact frameOf (upsertAccount_frame s a _).1 (upsertAccount_frame s a _).2.1
      (upsertAccount_frame s a _).2.2
  | incrNonce a =>
    cases h
    exact frameOf (upsertAccount_frame s a _).1 (upsertAccount_frame s a _).2.1
      (upsertAccount_frame s a _).2.2
  | setNonce a n =>
    cases h
    exact frameOf (upsertAccount_frame s a _).1 (upsertAccount_frame s a _).2.1
      (upsertAccount_frame s a _).2.2
  | setCode a code =>
    cases h
    exact frameOf (upsertAccount_frame s a _).1 (upsertAccount_frame s a _).2.1
      (upsertAccount_frame s a _).2.2
  | suicide a =>
    cases h
    exact frameOf (Suicide_frame s a).1 (Suicide_frame s a).2.1
      (Suicide_frame s a).2.2
  | touchAccount a =>
    cases h
    exact frameOf (upsertAccount_frame s a _).1 (upsertAccount_frame s a _).2.1
      (upsertAccount_frame s a _).2.2
  | createAccount a =>
    cases h
    exact frameOf rfl rfl rfl
  | setState a k v =>
    cases h
    exact frameOf (snapshots_SetState s a k v) (snap_SetState s a k v)
      (rev_SetState s a k v)
  | setStorage a k v =>
    cases h
    exact frameOf (SetStorage_frame s a k v).1 (SetStorage_frame s a k v).2.1
      (SetStorage_frame s a k v).2.2
  | emitLog a topics data =>
    cases h
    exact frameOf rfl rfl rfl
  | takeLogs =>
    cases h
    exact frameOf (Logs_frame s).1 (Logs_frame s).2.1 (Logs_frame s).2.2
  | addRefund g =>
    cases h
    exact frameOf rfl rfl rfl
  | subRefund g =>
    cases h
    exact frameOf rfl rfl rfl
  | cleanDeleteObjects b =>
    cases h
    exact frameOf rfl rfl rfl
  | snapshot =>
    cases h
    exact ⟨⟨[s.journal], rfl⟩, rfl, rfl⟩
  | revertTo id =>
    simp only [applyOp] at h
    unfold RevertToSnapshot at h
    by_cases hni : id < 0
    · simp [hni] at h
    · simp only [hni, if_false] at h
      cases hg : s.snapshots[id.toNat]? with
      | none => rw [hg] at h; cases h
      | some j =>
        rw [hg] at h
        cases h
        exact frameOf rfl rfl rfl

/-- A panic-free op sequence extends the published versions and preserves
snapshot and revision. -/
theorem applyOps_extends {s t : TxnState} {ops : List Op}
    (h : applyOps s ops = some t) :
    (∃ l, t.snapshots = s.snapshots ++ l) ∧ t.snap = s.snap ∧
      t.rev = s.rev := by
  induction ops generalizing s with
  | nil =>
    simp only [applyOps, Option.some.injEq] at h
    subst h
    exact ⟨⟨[], by simp⟩, rfl, rfl⟩
  | cons op ops ih =>
    simp only [applyOps] at h
    cases hop : applyOp s op with
    | none => rw [hop] at h; cases h
    | some u =>
      rw [hop] at h
      obtain ⟨⟨l1, h1⟩, h2, h3⟩ := applyOp_extends hop
      obtain ⟨⟨l2, h4⟩, h5, h6⟩ := ih h
      exact ⟨⟨l1 ++ l2, by rw [h4, h1, List.append_assoc]⟩,
        by rw [h5, h2], by rw [h6, h3]⟩

/-- Every observable of the transaction layer is a function of the journal
and the backing snapshot alone. -/
theorem obs_of_journal_snap_eq {s1 s2 : TxnState}
    (hj : s1.journal = s2.journal) (hs : s1.snap = s2.snap) :
    (∀ a, GetBalance s1 a = GetBalance s2 a) ∧
    (∀ a, GetNonce s1 a = GetNonce s2 a) ∧
    (∀ a, GetCode s1 a = GetCode s2 a) ∧
    (∀ a k, GetState s1 a k = GetState s2 a k) ∧
    GetRefund s1 = GetRefund s2 ∧
    LogsPeek s1 = LogsPeek s2 ∧
    (∀ a, Exist s1 a = Exist s2 a) ∧
    (∀ a, HasSuicided s1 a = HasSuicided s2 a) := by
  have hobj : ∀ a, getStateObject s1 a = getStateObject s2 a := by
    intro a
    unfold getStateObject
    rw [hj, hs]
  refine ⟨fun a => ?_, fun a => ?_, fun a => ?_, fun a k => ?_, ?_, ?_,
    fun a => ?_, fun a => ?_⟩
  · unfold GetBalance; rw [hobj a]
  · unfold GetNonce; rw [hobj a]
  · unfold GetCode; rw [hobj a, hs]
  · unfold GetState; rw [hobj a, hs]
  · unfold GetRefund; rw [hj]
  · unfold LogsPeek; rw [hj]
  · unfold Exist; rw [hobj a]
  · unfold HasSuicided; rw [hobj a]

/-- Element lookup at the length of the left list of an append. -/
theorem getElem?_append_len {α : Type} (l1 l2 : List α) (x : α) :
    (l1 ++ x :: l2)[l1.length]? = some x := by
  induction l1 with
  | nil => simp
  | cons e rest ih => simpa using ih

-- ### C5

/-- C5: after `id := snapshot()` and any panic-free op sequence that does
not commit, `revert_to(id)` succeeds and every observable (balances,
nonces, code, storage, refund counter, logs, existence and suicide flags)
reads exactly as before the ops ran. -/
theorem snapshot_revert_restores (s t : TxnState) (ops : List Op)
    (h : applyOps (TakeSnapshot s).2 ops = some t) :
    ∃ t', RevertToSnapshot t ((TakeSnapshot s).1 : Int) = some t' ∧
      (∀ a, GetBalance t' a = GetBalance s a) ∧
      (∀ a, GetNonce t' a = GetNonce s a) ∧
      (∀ a, GetCode t' a = GetCode s a) ∧
      (∀ a k, GetState t' a k = GetState s a k) ∧
      GetRefund t' = GetRefund s ∧
      LogsPeek t' = LogsPeek s ∧
      (∀ a, Exist t' a = Exist s a) ∧
      (∀ a, HasSuicided t' a = HasSuicided s a) := by
  obtain ⟨⟨l, hsn⟩, hsp, hr⟩ := applyOps_extends h
  have hsn' : t.snapshots = s.snapshots ++ (s.journal :: l) := by
    simpa [TakeSnapshot] using hsn
  have hid : ((s.snapshots.length : Int)).toNat = s.snapshots.length := by
    omega
  have hni : ¬((s.snapshots.length : Int) < 0) := by omega
  have hget : t.snapshots[((s.snapshots.length : Int)).toNat]? =
      some s.journal := by
    rw [hid, hsn']
    exact getElem?_append_len s.snapshots l s.journal
  refine ⟨{ t with journal := s.journal }, ?_, ?_⟩
  · simp only [TakeSnapshot, RevertToSnapshot, hni, if_false]
    rw [hget]
  · exact obs_of_journal_snap_eq rfl (by simpa [TakeSnapshot] using hsp)

/-- Witness for C5: set balance 100 at address 5, snapshot, overwrite with
200, revert — the balance reads 100 again. -/
theorem snapshot_revert_restores_witness :
    applyOps (TakeSnapshot c5pre).2 [Op.setBalance 5 200] = some c5t ∧
    (∃ t', RevertToSnapshot c5t ((TakeSnapshot c5pre).1 : Int) = some t' ∧
       GetBalance t' 5 = 100) := by
  refine ⟨rfl, ?_⟩
  obtain ⟨t', h1, h2, _⟩ :=
    snapshot_revert_restores c5pre c5t [Op.setBalance 5 200] rfl
  exact ⟨t', h1, by rw [h2 5]; decide⟩

-- ### Sorted-journal lemmas

/-- Adjacent sortedness of the journal gives global pairwise rank order. -/
theorem journalSorted_pairwise {j : Journal} (h : journalSorted j = true) :
    j.Pairwise (fun e1 e2 => e1.1.rank < e2.1.rank) := by
  induction j with
  | nil => exact List.Pairwise.nil
  | cons e rest ih =>
    cases rest with
    | nil => exact List.pairwise_singleton _ _
    | cons e2 rest2 =>
      simp only [journalSorted, Bool.and_eq_true, decide_eq_true_eq] at h
      have hp := ih h.2
      rw [List.pairwise_cons] at hp
      refine List.pairwise_cons.mpr ⟨?_, List.pairwise_cons.mpr hp⟩
      intro x hx
      rcases List.mem_cons.mp hx with rfl | hx2
      · exact h.1
      · exact h.1.trans (hp.1 x hx2)

/-- In a rank-sorted journal a lookup finds exactly the stored entry. -/
theorem jGet_eq_of_mem {j : Journal} {k : JKey} {v : JVal}
    (hp : j.Pairwise (fun e1 e2 => e1.1.rank < e2.1.rank))
    (hm : (k, v) ∈ j) : jGet j k = some v := by
  induction j with
  | nil => cases hm
  | cons e rest ih =>
    rw [List.pairwise_cons] at hp
    rcases List.mem_cons.mp hm with he | hm2
    · rw [← he]
      simp [jGet]
    · have hne : ¬e.1 = k := by
        intro hek
        have hlt := hp.1 (k, v) hm2
        rw [hek] at hlt
        exact lt_irrefl _ hlt
      simp only [jGet, hne, if_false]
      exact ih hp.2 hm2

/-- A successful lookup names a journal entry. -/
theorem mem_of_jGet {j : Journal} {k : JKey} {v : JVal}
    (h : jGet j k = some v) : (k, v) ∈ j := by
  induction j with
  | nil => cases h
  | cons e rest ih =>
    simp only [jGet] at h
    by_cases he : e.1 = k
    · rw [if_pos he] at h
      injection h with h2
      rw [← he, ← h2]
      exact List.mem_cons_self _ _
    · rw [if_neg he] at h
      exact List.mem_cons_of_mem _ (ih h)

/-- Membership in the collected deletion keys. -/
theorem mem_removeKeys {j : Journal} {b : Bool} {k : JKey} :
    k ∈ removeKeys j b ↔
      ∃ o, (k, JVal.obj o) ∈ j ∧
        (o.Suicide || (accountEmpty o && b)) = true := by
  unfold removeKeys
  rw [List.mem_filterMap]
  constructor
  · rintro ⟨⟨k1, v1⟩, he, hfe⟩
    cases v1 with
    | obj o =>
      dsimp only at hfe
      by_cases hc : (o.Suicide || (accountEmpty o && b)) = true
      · rw [if_pos hc] at hfe
        injection hfe with hk
        subst hk
        exact ⟨o, he, hc⟩
      · rw [if_neg hc] at hfe
        cases hfe
    | logs l => dsimp only at hfe; cases hfe
    | refund n => dsimp only at hfe; cases hfe
  · rintro ⟨o, ho, hc⟩
    exact ⟨(k, JVal.obj o), ho, by simp [hc]⟩

/-- Lookup after the deletion-marking fold: collected keys (all of which
resolve to objects) read back with the deleted flag set, all other keys are
untouched. -/
theorem markDeleted_get (R : List JKey) (j : Journal)
    (hR : ∀ k ∈ R, ∃ o, jGet j k = some (JVal.obj o)) (k' : JKey) :
    jGet (markDeleted j R) k' =
      if k' ∈ R then
        match jGet j k' with
        | some (JVal.obj o) => some (JVal.obj { o with Deleted := true })
        | x => x
      else jGet j k' := by
  induction R generalizing j with
  | nil => simp [markDeleted]
  | cons k R ih =>
    obtain ⟨o, ho⟩ := hR k (List.mem_cons_self k R)
    have hstep : markDeleted j (k :: R) =
        markDeleted (jInsert k (JVal.obj { o with Deleted := true }) j) R := by
      unfold markDeleted
      rw [List.foldl_cons, ho]
    rw [hstep]
    have hR1 : ∀ k2 ∈ R, ∃ o2,
        jGet (jInsert k (JVal.obj { o with Deleted := true }) j) k2 =
          some (JVal.obj o2) := by
      intro k2 hk2
      by_cases hkk : k = k2
      · subst hkk
        exact ⟨{ o with Deleted := true }, jGet_jInsert_self j k _⟩
      · obtain ⟨o2, ho2⟩ := hR k2 (List.mem_cons_of_mem _ hk2)
        exact ⟨o2, by rw [jGet_jInsert_ne j _ hkk, ho2]⟩
    rw [ih _ hR1]
    by_cases hkk : k = k'
    · subst hkk
      have h1 : k ∈ k :: R := List.mem_cons_self k R
      by_cases hmem : k ∈ R
      · rw [if_pos hmem, if_pos h1, jGet_jInsert_self, ho]
      · rw [if_neg hmem, if_pos h1, jGet_jInsert_self, ho]
    · by_cases hmem : k' ∈ R
      · have h1 : k' ∈ k :: R := List.mem_cons_of_mem _ hmem
        rw [if_pos hmem, if_pos h1, jGet_jInsert_ne j _ hkk]
      · have h1 : k' ∉ k :: R := by
          rw [List.mem_cons]
          push_neg
          exact ⟨Ne.symm hkk, hmem⟩
        rw [if_neg hmem, if_neg h1, jGet_jInsert_ne j _ hkk]

-- ### C9

/-- C9: on a well-formed journal, `clean_delete_objects(b)` marks exactly
the suicided (or, when `b`, empty) journal objects deleted, removes the
refund counter entry (so `get_refund` reads 0 afterwards), and changes no
other journal entry. -/
theorem cleanDeleteObjects_spec (s : TxnState) (b : Bool)
    (hwf : journalWF s.journal = true) :
    GetRefund (CleanDeleteObjects s b) = 0 ∧
    jGet (CleanDeleteObjects s b).journal .refund = none ∧
    (∀ a o, jGet s.journal (.addr a) = some (.obj o) →
       jGet (CleanDeleteObjects s b).journal (.addr a) =
         some (.obj (if o.Suicide || (accountEmpty o && b) then
                       { o with Deleted := true } else o))) ∧
    jGet (CleanDeleteObjects s b).journal .log = jGet s.journal .log ∧
    (∀ k, k ≠ JKey.refund → jGet s.journal k = none →
       jGet (CleanDeleteObjects s b).journal k = none) := by
  rw [journalWF, Bool.and_eq_true] at hwf
  have hp := journalSorted_pairwise hwf.1
  have hall := List.all_eq_true.mp hwf.2
  have hR : ∀ k ∈ removeKeys s.journal b, ∃ o,
      jGet s.journal k = some (JVal.obj o) := by
    intro k hk
    obtain ⟨o, ho, _⟩ := mem_removeKeys.mp hk
    exact ⟨o, jGet_eq_of_mem hp ho⟩
  have hjq : (CleanDeleteObjects s b).journal =
      jDelete .refund (markDeleted s.journal (removeKeys s.journal b)) := rfl
  refine ⟨?_, ?_, ?_, ?_, ?_⟩
  · simp only [GetRefund, hjq, jGet_jDelete_self]
  · rw [hjq]
    exact jGet_jDelete_self _ _
  · intro a o ho
    rw [hjq, jGet_jDelete_ne _ (by intro h; cases h),
      markDeleted_get _ _ hR]
    by_cases hc : (o.Suicide || (accountEmpty o && b)) = true
    · have hmem : (JKey.addr a) ∈ removeKeys s.journal b :=
        mem_removeKeys.mpr ⟨o, mem_of_jGet ho, hc⟩
      rw [if_pos hmem, ho, if_pos hc]
    · have hmem : (JKey.addr a) ∉ removeKeys s.journal b := by
        intro hk
        obtain ⟨o2, ho2, hc2⟩ := mem_removeKeys.mp hk
        have h3 := jGet_eq_of_mem hp ho2
        rw [ho] at h3
        injection h3 with h4
        injection h4 with h5
        rw [← h5] at hc2
        exact hc hc2
      rw [if_neg hmem, ho, if_neg hc]
  · rw [hjq, jGet_jDelete_ne _ (by intro h; cases h),
      markDeleted_get _ _ hR]
    have hmem : JKey.log ∉ removeKeys s.journal b := by
      intro hk
      obtain ⟨o2, ho2, _⟩ := mem_removeKeys.mp hk
      have h3 := hall _ ho2
      simp [entryWF] at h3
    rw [if_neg hmem]
  · intro k hk hnone
    rw [hjq, jGet_jDelete_ne _ (Ne.symm hk), markDeleted_get _ _ hR]
    have hmem : k ∉ removeKeys s.journal b := by
      intro hkm
      obtain ⟨o2, ho2, _⟩ := mem_removeKeys.mp hkm
      have h3 := jGet_eq_of_mem hp ho2
      rw [hnone] at h3
      cases h3
    rw [if_neg hmem]
    exact hnone

/-- Witness for C9 on `c9state`: the suicided object at address 0 comes
back deleted, the live object at address 5 is untouched, and the refund
counter reads 0. -/
theorem cleanDeleteObjects_spec_witness :
    journalWF c9state.journal = true ∧
    GetRefund (CleanDeleteObjects c9state true) = 0 ∧
    jGet (CleanDeleteObjects c9state true).journal (.addr 0) =
      some (.obj { c9objSuic with Deleted := true }) ∧
    jGet (CleanDeleteObjects c9state true).journal (.addr 5) =
      some (.obj c9objLive) := by
  have h := cleanDeleteObjects_spec c9state true (by decide)
  refine ⟨by decide, h.1, ?_, ?_⟩
  · rw [h.2.2.1 0 c9objSuic (by decide)]
    decide
  · rw [h.2.2.1 5 c9objLive (by decide)]
    decide

-- ### Commit lemmas

/-- Adjacent sortedness of an overlay gives global pairwise key order. -/
theorem overlaySorted_pairwise {ov : List (Nat × Option Nat)}
    (h : overlaySorted ov = true) :
    ov.Pairwise (fun e1 e2 => e1.1 < e2.1) := by
  induction ov with
  | nil => exact List.Pairwise.nil
  | cons e rest ih =>
    cases rest with
    | nil => exact List.pairwise_singleton _ _
    | cons e2 rest2 =>
      simp only [overlaySorted, Bool.and_eq_true, decide_eq_true_eq] at h
      have hp := ih h.2
      rw [List.pairwise_cons] at hp
      refine List.pairwise_cons.mpr ⟨?_, List.pairwise_cons.mpr hp⟩
      intro x hx
      rcases List.mem_cons.mp hx with rfl | hx2
      · exact h.1
      · exact h.1.trans (hp.1 x hx2)

/-- On a disciplined journal, every committed object originates from an
address-keyed state-object entry. -/
theorem commit_mem_origin {s : TxnState}
    (hall : ∀ e ∈ s.journal, entryWF e = true) {o : Object}
    (ho : o ∈ Commit s) :
    ∃ a so, (JKey.addr a, JVal.obj so) ∈ s.journal ∧ o = mkObject a so := by
  unfold Commit at ho
  rw [List.mem_filterMap] at ho
  obtain ⟨⟨k1, v1⟩, he, hfe⟩ := ho
  cases v1 with
  | obj so =>
    dsimp only at hfe
    injection hfe with h2
    cases k1 with
    | addr a => exact ⟨a, so, he, h2.symm⟩
    | log => have h3 := hall _ he; simp [entryWF] at h3
    | refund => have h3 := hall _ he; simp [entryWF] at h3
  | logs l => dsimp only at hfe; cases hfe
  | refund n => dsimp only at hfe; cases hfe

/-- Pairwise order survives a `filterMap` whose outputs respect it. -/
theorem pairwise_filterMap_of_pairwise {α β : Type} {R : α → α → Prop}
    {S : β → β → Prop} (f : α → Option β) {l : List α} (hl : l.Pairwise R)
    (h : ∀ a b, a ∈ l → b ∈ l → R a b →
      ∀ x, f a = some x → ∀ y, f b = some y → S x y) :
    (l.filterMap f).Pairwise S := by
  induction l with
  | nil => simp
  | cons e rest ih =>
    rw [List.pairwise_cons] at hl
    rw [List.filterMap_cons]
    have ih2 := ih hl.2 fun a b ha hb =>
      h a b (List.mem_cons_of_mem _ ha) (List.mem_cons_of_mem _ hb)
    cases hfe : f e with
    | none => exact ih2
    | some x =>
      refine List.pairwise_cons.mpr ⟨?_, ih2⟩
      intro y hy
      rw [List.mem_filterMap] at hy
      obtain ⟨b, hb, hfb⟩ := hy
      exact h e b (List.mem_cons_self _ _) (List.mem_cons_of_mem _ hb)
        (hl.1 b hb) x hfe y hfb

/-- Rank order of two address keys reflects address order. -/
theorem addr_lt_of_rank_lt {a b : Nat}
    (h : (JKey.addr a).rank < (JKey.addr b).rank) : a < b := by
  cases a <;> cases b <;> simp [JKey.rank] at h ⊢
  all_goals omega

/-- The serialized address of a built object. -/
theorem mkObject_Address (a : Nat) (so : StateObject) :
    (mkObject a so).Address = a := rfl

/-- The serialized key of a built storage entry. -/
theorem mkStorageObject_Key (k : Nat) (v : Option Nat) :
    (mkStorageObject k v).Key = k := by
  cases v <;> rfl

-- ### C7

/-- C7: on a well-formed journal, `commit()` emits no sentinel entry (every
output comes from an address-keyed state object), lists addresses in
strictly ascending order, gives every deleted object an empty storage list,
keeps every storage list strictly ascending by key, and marks exactly the
tombstones as deleted storage entries. -/
theorem commit_spec (s : TxnState) (hwf : journalWF s.journal = true) :
    (∀ o ∈ Commit s, ∃ a so,
       (JKey.addr a, JVal.obj so) ∈ s.journal ∧ o = mkObject a so) ∧
    (Commit s).Pairwise (fun o1 o2 => o1.Address < o2.Address) ∧
    (∀ o ∈ Commit s, o.Deleted = true → o.Storage = []) ∧
    (∀ o ∈ Commit s, o.Storage.Pairwise (fun x y => x.Key < y.Key)) ∧
    (∀ o ∈ Commit s, ∀ so ∈ o.Storage, (so.Deleted = true ↔ so.Val = none)) := by
  rw [journalWF, Bool.and_eq_true] at hwf
  have hp := journalSorted_pairwise hwf.1
  have hall := List.all_eq_true.mp hwf.2
  have c1 : ∀ o ∈ Commit s, ∃ a so,
      (JKey.addr a, JVal.obj so) ∈ s.journal ∧ o = mkObject a so :=
    fun o ho => commit_mem_origin hall ho
  refine ⟨c1, ?_, ?_, ?_, ?_⟩
  · unfold Commit
    refine pairwise_filterMap_of_pairwise _ hp ?_
    rintro ⟨k1, v1⟩ ⟨k2, v2⟩ h1 h2 hr x hfx y hfy
    cases v1 with
    | obj so1 =>
      dsimp only at hfx
      injection hfx with hx
      cases v2 with
      | obj so2 =>
        dsimp only at hfy
        injection hfy with hy
        have e1 := hall _ h1
        have e2 := hall _ h2
        cases k1 with
        | addr a1 =>
          cases k2 with
          | addr a2 =>
            rw [← hx, ← hy, mkObject_Address, mkObject_Address]
            exact addr_lt_of_rank_lt hr
          | log => simp [entryWF] at e2
          | refund => simp [entryWF] at e2
        | log => simp [entryWF] at e1
        | refund => simp [entryWF] at e1
      | logs l => dsimp only at hfy; cases hfy
      | refund n => dsimp only at hfy; cases hfy
    | logs l => dsimp only at hfx; cases hfx
    | refund n => dsimp only at hfx; cases hfx
  · intro o ho hdel
    obtain ⟨a, so, hm, rfl⟩ := c1 o ho
    simp only [mkObject] at hdel ⊢
    simp [hdel]
  · intro o ho
    obtain ⟨a, so, hm, rfl⟩ := c1 o ho
    have hov : overlaySorted so.Overlay = true := by
      have h3 := hall _ hm
      simpa [entryWF] using h3
    simp only [mkObject]
    by_cases hd : so.Deleted = true
    · simp [hd]
    · rw [if_neg hd, List.pairwise_map]
      refine (overlaySorted_pairwise hov).imp ?_
      intro e1 e2 h12
      simpa [mkStorageObject_Key] using h12
  · intro o ho so hso
    obtain ⟨a, ob, hm, rfl⟩ := c1 o ho
    simp only [mkObject] at hso
    by_cases hd : ob.Deleted = true
    · rw [if_pos hd] at hso
      cases hso
    · rw [if_neg hd, List.mem_map] at hso
      obtain ⟨⟨k1, v1⟩, hmem, rfl⟩ := hso
      cases v1 <;> simp [mkStorageObject]

/-- Witness for C7 on `c7state` (two live objects with overlays, one
deleted object, both sentinels): the hypotheses hold and the committed
address list reads 0, 3, 9 in order. -/
theorem commit_spec_witness :
    journalWF c7state.journal = true ∧
    (Commit c7state).map Object.Address = [0, 3, 9] ∧
    (Commit c7state).Pairwise (fun o1 o2 => o1.Address < o2.Address) ∧
    (∀ o ∈ Commit c7state, o.Deleted = true → o.Storage = []) :=
  ⟨by decide, by decide, (commit_spec c7state (by decide)).2.1,
   (commit_spec c7state (by decide)).2.2.1⟩

end EthState
